import Mathlib

/-!
Shallow embedding of `src/core/logger/message.ts` (the level-keyed logging
dispatcher of maeltm/beyond.ts) and proofs about it.

Modelling conventions:
  * JavaScript strings are Lean `String`; the character-level operations the
    source uses (`substring(0, n)`, `substring(n)`, `split(':')`) are modelled
    over `String.data` by `strTake`, `strDrop` and `jsSplit`, which mirror
    their JavaScript semantics exactly (in particular `''.split(':')` is
    `['']`, and `split` cuts at every separator occurrence, not just the
    first).
  * Thrown JavaScript exceptions are modelled by `Except`: construction-time
    throws carry a `ConfigError` (a structured rendering of the data that the
    source interpolates into the thrown `Error` message), and asynchronous
    (`Future`) failures carry an opaque `String` error.
  * External collaborators (the `util.format` formatter, the shared MongoDB
    connection's `collection(...).insert`, and the fluentd sender's `emit`)
    are out of scope per their capability contracts; an `Env` record supplies
    their outcomes.
  * `sfuture`'s `Future<void>` is modelled as `Except String Unit`
    (`Future.successful(null)` is `.ok ()`); `Future.sequence` over an
    already-started list of futures is `futureSequence`, which succeeds iff
    every element succeeded and otherwise carries the first failure in list
    order.
  * A JavaScript object literal is modelled as an association list whose keys
    are distinct (`List (String × _)` plus a `Nodup` hypothesis where key
    uniqueness matters); `logger[level]` lookup is `lookupLevel`.
-/

deriving instance DecidableEq for Except

/-- One raw per-level configuration value, as `create` classifies it:
a string, an array of strings, or any other JavaScript value (of which only
its truthiness matters to the code). -/
inductive ConfigValue where
  | vStr (s : String)
  | vArr (methods : List String)
  | vOther (truthy : Bool)
deriving DecidableEq

/-- JavaScript truthiness test `!config` as applied by `create`: the empty
string is falsy, every array (even `[]`) is truthy, and other values carry
their truthiness explicitly. -/
def ConfigValue.isFalsy : ConfigValue → Bool
  | .vStr s => s == ""
  | .vArr _ => false
  | .vOther truthy => !truthy

/-- Structured rendering of the construction-time `throw new Error(...)`
messages of `message.ts`: the empty-collection throw of the `MongodbLogger`
constructor, the unknown-descriptor throw of `getLoggerByMethod` (which
interpolates the method string and the level), and the bad-shape throw of
`create` (which interpolates the offending value and the level). -/
inductive ConfigError where
  | collectionEmpty
  | invalidOption (method : String) (level : String)
  | invalidConfig (value : ConfigValue) (level : String)
deriving DecidableEq

/-- The resolved sink variants of `message.ts`, with the state each class
instance stores: `StdoutLogger`/`StderrLogger` keep their level,
`MongodbLogger` keeps level and collection name, `FluentdLogger` keeps level,
host and port (the port is `hostAndPort[1]`, which is `undefined` — `none` —
when the split produced fewer than two parts). -/
inductive MessageLogger where
  | stdoutLogger (level : String)
  | stderrLogger (level : String)
  | mongodbLogger (level : String) (collectionName : String)
  | fluentdLogger (level : String) (host : String) (port : Option String)
deriving DecidableEq

/-- JavaScript `s.substring(0, n)` for a nonnegative `n`. -/
def strTake (s : String) (n : Nat) : String := ⟨s.data.take n⟩

/-- JavaScript `s.substring(n)` for a nonnegative `n`. -/
def strDrop (s : String) (n : Nat) : String := ⟨s.data.drop n⟩

/-- JavaScript `String.prototype.split` with a single-character separator and
no limit, over the character list: every occurrence of the separator cuts,
and the result always has one more group than there are separators (so it is
never empty, and `split` of the empty list is `[[]]`). -/
def splitChars (sep : Char) : List Char → List (List Char)
  | [] => [[]]
  | c :: cs =>
    if c = sep then [] :: splitChars sep cs
    else
      match splitChars sep cs with
      | [] => [[c]]
      | g :: gs => (c :: g) :: gs

/-- JavaScript `s.split(sep)` for a one-character separator. -/
def jsSplit (sep : Char) (s : String) : List String :=
  (splitChars sep s.data).map (fun l => ⟨l⟩)

/-- Constructor of `MongodbLogger`: throws (`ConfigError.collectionEmpty`)
when the collection name is the empty string, otherwise stores level and
collection name. -/
def mkMongodbLogger (level collectionName : String) :
    Except ConfigError MessageLogger :=
  if collectionName = "" then .error .collectionEmpty
  else .ok (.mongodbLogger level collectionName)

/-- Constructor of `FluentdLogger`: splits the `host:port` remainder it was
handed already split by `getLoggerByMethod`; modelled there. This definition
records the registered `on('error', ...)` handler of the constructor: it
returns silently for `ECONNRESET`/`ECONNREFUSED` error codes and re-throws
every other error (carrying the error itself). -/
def fluentdOnError (code : String) : Except String Unit :=
  if code = "ECONNRESET" ∨ code = "ECONNREFUSED" then .ok ()
  else .error code

/-- Lifetime of the fluentd sender's error channel: the handler installed by
the `FluentdLogger` constructor stays registered for the sink's whole
lifetime, so every event of the channel passes through `fluentdOnError`; the
first event the handler re-throws escapes. -/
def processSenderErrors : List String → Except String Unit
  | [] => .ok ()
  | code :: rest =>
    match fluentdOnError code with
    | .ok () => processSenderErrors rest
    | .error e => .error e

/-- Descriptor resolution `getLoggerByMethod(method, level)`: exact matches
`"stdout"`/`"stderr"`, then the `substring(0, 8) === 'mongodb:'` prefix test
(remainder is the collection name, validated by the `MongodbLogger`
constructor), then the `substring(0, 8) === 'fluentd:'` prefix test
(remainder is split on every `':'`; element 0 is the host and element 1 —
`undefined`/`none` when absent — is the port), and otherwise the
`Cannot set logger: %j is not valid option for %j` throw naming the method
and the level. -/
def getLoggerByMethod (method level : String) : Except ConfigError MessageLogger :=
  if method = "stdout" then .ok (.stdoutLogger level)
  else if method = "stderr" then .ok (.stderrLogger level)
  else if strTake method 8 = "mongodb:" then
    mkMongodbLogger level (strDrop method 8)
  else if strTake method 8 = "fluentd:" then
    let hostAndPort := jsSplit ':' (strDrop method 8)
    .ok (.fluentdLogger level (hostAndPort.headD "") (hostAndPort.get? 1))
  else .error (.invalidOption method level)

/-- The `config.map(method => getLoggerByMethod(method, level))` loop over an
array-shaped per-level value: resolves the descriptors left to right and
propagates the first throw. -/
def resolveList (methods : List String) (level : String) :
    Except ConfigError (List MessageLogger) :=
  match methods with
  | [] => .ok []
  | m :: rest =>
    match getLoggerByMethod m level with
    | .error e => .error e
    | .ok l =>
      match resolveList rest level with
      | .error e => .error e
      | .ok ls => .ok (l :: ls)

/-- Body of the `_.map(config, ...)` callback of `create` for one level:
falsy values produce no entry (`none`), a string produces a one-element list,
an array resolves element-wise, and any other (truthy) value throws
`ConfigError.invalidConfig` naming the value and the level. -/
def resolveValue (value : ConfigValue) (level : String) :
    Except ConfigError (Option (List MessageLogger)) :=
  if value.isFalsy then .ok none
  else
    match value with
    | .vStr s =>
      match getLoggerByMethod s level with
      | .error e => .error e
      | .ok l => .ok (some [l])
    | .vArr methods =>
      match resolveList methods level with
      | .error e => .error e
      | .ok ls => .ok (some ls)
    | .vOther truthy => .error (.invalidConfig (.vOther truthy) level)

/-- Construction phase of `create(config)`: iterates the configuration
object's entries in order, skips falsy values, stores resolved sink lists
under their level, and propagates the first throw (in which case no
dispatcher mapping is produced at all). -/
def create (config : List (String × ConfigValue)) :
    Except ConfigError (List (String × List MessageLogger)) :=
  match config with
  | [] => .ok []
  | (level, v) :: rest =>
    match resolveValue v level with
    | .error e => .error e
    | .ok none => create rest
    | .ok (some sinks) =>
      match create rest with
      | .error e => .error e
      | .ok m => .ok ((level, sinks) :: m)

/-- JavaScript object lookup `logger[level]` on the dispatcher mapping:
`undefined` (`none`) when the level was never assigned. -/
def lookupLevel (m : List (String × List MessageLogger)) (level : String) :
    Option (List MessageLogger) :=
  (m.find? (fun p => p.1 == level)).map (fun p => p.2)

/-- Log record inserted by `MongodbLogger.log`:
`{level, message: formattedMessage, date: new Date()}`. -/
structure LogDocument where
  level : String
  message : String
  date : Nat
deriving DecidableEq

/-- Outcomes supplied by the external collaborators: `util.format`, the
current date, `db.connection().collection(name).insert(document)` (through
`Future.denodify`), and `logger.emit(level, formattedMessage)` of the fluentd
sender for a sink holding the given host and port (also denodified). -/
structure Env where
  fmt : String → List String → String
  now : Nat
  insert : String → LogDocument → Except String Unit
  fluentdEmit : String → Option String → String → String → Except String Unit

/-- The `log(message, args)` operation of each sink variant: the console
variants format and write synchronously and return `Future.successful(null)`;
the MongoDB variant formats, builds its document and inserts it; the fluentd
variant formats and emits tagged with its level. -/
def MessageLogger.log (env : Env) (l : MessageLogger) (message : String)
    (args : List String) : Except String Unit :=
  match l with
  | .stdoutLogger _ => .ok ()
  | .stderrLogger _ => .ok ()
  | .mongodbLogger level collectionName =>
    env.insert collectionName
      { level := level, message := env.fmt message args, date := env.now }
  | .fluentdLogger level host port =>
    env.fluentdEmit host port level (env.fmt message args)

/-- `Future.sequence` over the list of already-started sink futures: succeeds
once every element succeeded, and otherwise resolves as failed carrying the
first failure in list order. -/
def futureSequence : List (Except String Unit) → Except String Unit
  | [] => .ok ()
  | f :: fs =>
    match f with
    | .ok () => futureSequence fs
    | .error e => .error e

/-- Sinks whose `log` the emit closure starts for a level: all sinks of the
level's entry (the `loggers.map(logger => logger.log(message, args))` line),
and none when the level has no entry. -/
def invokedSinks (m : List (String × List MessageLogger)) (level : String) :
    List MessageLogger :=
  match lookupLevel m level with
  | none => []
  | some loggers => loggers

/-- The closure returned by `create`: `emit(level, message, args)` returns
`Future.successful(null)` when `logger[level]` is falsy (no entry), and
otherwise starts `log` on every sink of the entry and sequences the
resulting futures. -/
def emit (env : Env) (m : List (String × List MessageLogger)) (level : String)
    (message : String) (args : List String) : Except String Unit :=
  match lookupLevel m level with
  | none => .ok ()
  | some loggers =>
    futureSequence (loggers.map (fun l => l.log env message args))

/-! ### Helper lemmas about the string and list primitives -/

theorem splitChars_ne_nil (sep : Char) (l : List Char) : splitChars sep l ≠ [] := by
  cases l with
  | nil => simp [splitChars]
  | cons c cs =>
    simp only [splitChars]
    split
    · simp
    · split
      · simp
      · simp

theorem splitChars_of_not_mem (sep : Char) (l : List Char) (h : sep ∉ l) :
    splitChars sep l = [l] := by
  induction l with
  | nil => rfl
  | cons c cs ih =>
    simp only [List.mem_cons, not_or] at h
    obtain ⟨h1, h2⟩ := h
    simp only [splitChars]
    rw [if_neg (fun hc => h1 hc.symm), ih h2]

theorem splitChars_append (sep : Char) (a t : List Char) (h : sep ∉ a) :
    splitChars sep (a ++ sep :: t) = a :: splitChars sep t := by
  induction a with
  | nil => simp [splitChars]
  | cons c cs ih =>
    simp only [List.mem_cons, not_or] at h
    obtain ⟨h1, h2⟩ := h
    simp only [List.cons_append, splitChars, List.append_eq]
    rw [if_neg (fun hc => h1 hc.symm), ih h2]

theorem string_mk_data (s : String) : (⟨s.data⟩ : String) = s := rfl

theorem string_ne_of_data_length (s t : String)
    (h : s.data.length ≠ t.data.length) : s ≠ t := fun he => h (by rw [he])

theorem strTake_append (p rest : String) : strTake (p ++ rest) p.data.length = p := by
  simp only [strTake, String.data_append, List.take_left]

theorem strDrop_append (p rest : String) : strDrop (p ++ rest) p.data.length = rest := by
  simp only [strDrop, String.data_append, List.drop_left]

/-- Every `"fluentd:"`-prefixed descriptor resolves, without any possibility
of failure, to a `FluentdLogger` whose host is element 0 and whose port is
element 1 (possibly `none`) of the full split of the remainder. -/
theorem getLoggerByMethod_fluentd (level rest : String) :
    getLoggerByMethod ("fluentd:" ++ rest) level =
      .ok (.fluentdLogger level ((jsSplit ':' rest).headD "")
        ((jsSplit ':' rest).get? 1)) := by
  have hlen : ("fluentd:" ++ rest).data.length = 8 + rest.data.length := by
    simp [String.data_append]
    omega
  have h1 : ("fluentd:" ++ rest) ≠ "stdout" := by
    apply string_ne_of_data_length
    rw [hlen]
    have h6 : ("stdout" : String).data.length = 6 := rfl
    omega
  have h2 : ("fluentd:" ++ rest) ≠ "stderr" := by
    apply string_ne_of_data_length
    rw [hlen]
    have h6 : ("stderr" : String).data.length = 6 := rfl
    omega
  have hfl : strTake ("fluentd:" ++ rest) 8 = "fluentd:" := by
    have h8 : ("fluentd:" : String).data.length = 8 := rfl
    rw [← h8, strTake_append]
  have hmg : ¬ strTake ("fluentd:" ++ rest) 8 = "mongodb:" := by
    rw [hfl]
    decide
  have hdrop : strDrop ("fluentd:" ++ rest) 8 = rest := by
    have h8 : ("fluentd:" : String).data.length = 8 := rfl
    rw [← h8, strDrop_append]
  rw [getLoggerByMethod, if_neg h1, if_neg h2, if_neg hmg, if_pos hfl, hdrop]

/-! ### Helper lemmas about the resolver and the future combinators -/

theorem resolveList_length (methods : List String) (level : String)
    (sinks : List MessageLogger) (h : resolveList methods level = .ok sinks) :
    sinks.length = methods.length := by
  induction methods generalizing sinks with
  | nil =>
    simp only [resolveList] at h
    injection h with h
    subst h
    rfl
  | cons m rest ih =>
    cases hg : getLoggerByMethod m level with
    | error e => simp [resolveList, hg] at h
    | ok l =>
      cases hr : resolveList rest level with
      | error e => simp [resolveList, hg, hr] at h
      | ok ls =>
        simp only [resolveList, hg, hr] at h
        injection h with h
        subst h
        simp [ih ls hr]

theorem resolveList_get (methods : List String) (level : String)
    (sinks : List MessageLogger) (h : resolveList methods level = .ok sinks)
    (i : Nat) (m : String) (hm : methods.get? i = some m) :
    ∃ l, sinks.get? i = some l ∧ getLoggerByMethod m level = .ok l := by
  induction methods generalizing sinks i with
  | nil => simp at hm
  | cons m0 rest ih =>
    cases hg : getLoggerByMethod m0 level with
    | error e => simp [resolveList, hg] at h
    | ok l0 =>
      cases hr : resolveList rest level with
      | error e => simp [resolveList, hg, hr] at h
      | ok ls =>
        simp only [resolveList, hg, hr] at h
        injection h with h
        subst h
        cases i with
        | zero =>
          simp only [List.get?_cons_zero, Option.some.injEq] at hm
          subst hm
          exact ⟨l0, rfl, hg⟩
        | succ n =>
          simp only [List.get?_cons_succ] at hm ⊢
          exact ih ls hr n hm

theorem futureSequence_eq_ok (fs : List (Except String Unit)) :
    futureSequence fs = .ok () ↔ ∀ f ∈ fs, f = .ok () := by
  induction fs with
  | nil => simp [futureSequence]
  | cons f rest ih =>
    cases f with
    | ok u =>
      cases u
      simp [futureSequence, ih]
    | error e => simp [futureSequence]

theorem futureSequence_error_mem (fs : List (Except String Unit)) (e : String)
    (h : futureSequence fs = .error e) : Except.error e ∈ fs := by
  induction fs with
  | nil => simp [futureSequence] at h
  | cons f rest ih =>
    cases f with
    | ok u =>
      cases u
      simp only [futureSequence] at h
      exact List.mem_cons_of_mem _ (ih h)
    | error e2 =>
      simp only [futureSequence] at h
      injection h with h
      subst h
      exact List.mem_cons_self _ _

/-! ### Helper lemmas about the dispatcher mapping -/

theorem lookupLevel_cons_self (level : String) (sinks : List MessageLogger)
    (m : List (String × List MessageLogger)) :
    lookupLevel ((level, sinks) :: m) level = some sinks := by
  unfold lookupLevel
  rw [List.find?_cons_of_pos _ (by simp)]
  rfl

theorem lookupLevel_cons_ne (l0 level : String) (sinks : List MessageLogger)
    (m : List (String × List MessageLogger)) (h : l0 ≠ level) :
    lookupLevel ((l0, sinks) :: m) level = lookupLevel m level := by
  unfold lookupLevel
  rw [List.find?_cons_of_neg _ (by simp [h])]

theorem lookupLevel_eq_none (m : List (String × List MessageLogger))
    (level : String) (h : level ∉ m.map Prod.fst) : lookupLevel m level = none := by
  induction m with
  | nil => rfl
  | cons p rest ih =>
    obtain ⟨l0, sinks⟩ := p
    simp only [List.map_cons, List.mem_cons, not_or] at h
    rw [lookupLevel_cons_ne _ _ _ _ (fun he => h.1 he.symm)]
    exact ih h.2

theorem create_keys_mem (config : List (String × ConfigValue))
    (m : List (String × List MessageLogger)) (h : create config = .ok m) :
    ∀ x ∈ m.map Prod.fst, x ∈ config.map Prod.fst := by
  induction config generalizing m with
  | nil =>
    simp only [create] at h
    injection h with h
    subst h
    simp
  | cons entry rest ih =>
    obtain ⟨level, v⟩ := entry
    cases hv : resolveValue v level with
    | error e => simp [create, hv] at h
    | ok entryOpt =>
      cases entryOpt with
      | none =>
        simp only [create, hv] at h
        intro x hx
        simp only [List.map_cons, List.mem_cons]
        exact Or.inr (ih m h x hx)
      | some sinks =>
        cases hr : create rest with
        | error e => simp [create, hv, hr] at h
        | ok m2 =>
          simp only [create, hv, hr] at h
          injection h with h
          subst h
          intro x hx
          simp only [List.map_cons, List.mem_cons] at hx ⊢
          cases hx with
          | inl he => exact Or.inl he
          | inr he => exact Or.inr (ih m2 hr x he)

theorem create_mem (config : List (String × ConfigValue))
    (m : List (String × List MessageLogger)) (h : create config = .ok m)
    (level : String) (sinks : List MessageLogger) (hmem : (level, sinks) ∈ m) :
    ∃ v, (level, v) ∈ config ∧ resolveValue v level = .ok (some sinks) := by
  induction config generalizing m with
  | nil =>
    simp only [create] at h
    injection h with h
    subst h
    simp at hmem
  | cons entry rest ih =>
    obtain ⟨l0, v0⟩ := entry
    cases hv : resolveValue v0 l0 with
    | error e => simp [create, hv] at h
    | ok entryOpt =>
      cases entryOpt with
      | none =>
        simp only [create, hv] at h
        obtain ⟨v, hv1, hv2⟩ := ih m h hmem
        exact ⟨v, List.mem_cons_of_mem _ hv1, hv2⟩
      | some sinks0 =>
        cases hr : create rest with
        | error e => simp [create, hv, hr] at h
        | ok m2 =>
          simp only [create, hv, hr] at h
          injection h with h
          subst h
          rw [List.mem_cons] at hmem
          cases hmem with
          | inl heq =>
            simp only [Prod.mk.injEq] at heq
            obtain ⟨rfl, rfl⟩ := heq
            exact ⟨v0, List.mem_cons_self _ _, hv⟩
          | inr hmem =>
            obtain ⟨v, hv1, hv2⟩ := ih m2 hr hmem
            exact ⟨v, List.mem_cons_of_mem _ hv1, hv2⟩

theorem create_lookup (config : List (String × ConfigValue))
    (m : List (String × List MessageLogger)) (level : String) (v : ConfigValue)
    (hnd : (config.map Prod.fst).Nodup) (h : create config = .ok m)
    (hmem : (level, v) ∈ config) :
    ∃ entry, resolveValue v level = .ok entry ∧ lookupLevel m level = entry := by
  induction config generalizing m with
  | nil => simp at hmem
  | cons e0 rest ih =>
    obtain ⟨l0, v0⟩ := e0
    simp only [List.map_cons, List.nodup_cons] at hnd
    obtain ⟨hnotin, hnd2⟩ := hnd
    cases hv : resolveValue v0 l0 with
    | error err => simp [create, hv] at h
    | ok entryOpt =>
      rw [List.mem_cons] at hmem
      cases entryOpt with
      | none =>
        simp only [create, hv] at h
        cases hmem with
        | inl heq =>
          simp only [Prod.mk.injEq] at heq
          obtain ⟨rfl, rfl⟩ := heq
          refine ⟨none, hv, ?_⟩
          apply lookupLevel_eq_none
          intro hk
          exact hnotin (create_keys_mem rest m h level hk)
        | inr hmem => exact ih m hnd2 h hmem
      | some sinks =>
        cases hr : create rest with
        | error err => simp [create, hv, hr] at h
        | ok m2 =>
          simp only [create, hv, hr] at h
          injection h with h
          subst h
          cases hmem with
          | inl heq =>
            simp only [Prod.mk.injEq] at heq
            obtain ⟨rfl, rfl⟩ := heq
            exact ⟨some sinks, hv, lookupLevel_cons_self _ _ _⟩
          | inr hmem =>
            have hne : l0 ≠ level := by
              intro he
              subst he
              exact hnotin (List.mem_map_of_mem Prod.fst hmem)
            obtain ⟨entry, h1, h2⟩ := ih m2 hnd2 hr hmem
            refine ⟨entry, h1, ?_⟩
            rw [lookupLevel_cons_ne _ _ _ _ hne]
            exact h2

theorem create_error_of_entry (config : List (String × ConfigValue))
    (level : String) (v : ConfigValue) (e : ConfigError)
    (hmem : (level, v) ∈ config) (hv : resolveValue v level = .error e) :
    ∃ e2, create config = .error e2 := by
  induction config with
  | nil => simp at hmem
  | cons e0 rest ih =>
    obtain ⟨l0, v0⟩ := e0
    rw [List.mem_cons] at hmem
    cases hv0 : resolveValue v0 l0 with
    | error err => exact ⟨err, by simp [create, hv0]⟩
    | ok entryOpt =>
      cases hmem with
      | inl heq =>
        simp only [Prod.mk.injEq] at heq
        obtain ⟨rfl, rfl⟩ := heq
        rw [hv0] at hv
        exact absurd hv (by simp)
      | inr hmem =>
        obtain ⟨e2, he2⟩ := ih hmem
        cases entryOpt with
        | none => exact ⟨e2, by simp [create, hv0, he2]⟩
        | some sinks => exact ⟨e2, by simp [create, hv0, he2]⟩

theorem resolveValue_falsy (v : ConfigValue) (level : String)
    (h : v.isFalsy = true) : resolveValue v level = .ok none := by
  simp [resolveValue, h]

theorem resolveValue_arr_ok (methods : List String) (level : String)
    (sinks : List MessageLogger)
    (h : resolveValue (.vArr methods) level = .ok (some sinks)) :
    resolveList methods level = .ok sinks := by
  cases hr : resolveList methods level with
  | error e => simp [resolveValue, ConfigValue.isFalsy, hr] at h
  | ok ls =>
    simp only [resolveValue, ConfigValue.isFalsy, Bool.false_eq_true, if_false, hr,
      Except.ok.injEq, Option.some.injEq] at h
    rw [h]

theorem resolveValue_ok_some (v : ConfigValue) (level : String)
    (sinks : List MessageLogger)
    (h : resolveValue v level = .ok (some sinks)) :
    v.isFalsy = false ∧ (sinks = [] → v = .vArr []) := by
  cases hf : v.isFalsy with
  | true =>
    rw [resolveValue_falsy v level hf] at h
    simp at h
  | false =>
    refine ⟨rfl, fun hs => ?_⟩
    subst hs
    cases v with
    | vStr s =>
      cases hg : getLoggerByMethod s level with
      | error e => simp [resolveValue, hf, hg] at h
      | ok l => simp [resolveValue, hf, hg] at h
    | vArr ms =>
      have hrl := resolveValue_arr_ok ms level [] h
      have hlen := resolveList_length ms level [] hrl
      have hnil : ms = [] := List.eq_nil_of_length_eq_zero hlen.symm
      rw [hnil]
    | vOther t => simp [resolveValue, hf] at h

/-- Trivial collaborator environment in which every external asynchronous
operation succeeds; used to instantiate witnesses. -/
def env0 : Env where
  fmt := fun message _ => message
  now := 0
  insert := fun _ _ => .ok ()
  fluentdEmit := fun _ _ _ _ => .ok ()

/-- C3: for every level string that has no entry in the dispatcher's mapping,
`emit(level, message, args)` returns an already-successful completion signal
immediately and invokes no sink's `log` operation. -/
theorem emit_unconfigured_level_noop (env : Env)
    (m : List (String × List MessageLogger)) (level message : String)
    (args : List String) (h : lookupLevel m level = none) :
    emit env m level message args = .ok () ∧ invokedSinks m level = [] := by
  constructor
  · simp [emit, h]
  · simp [invokedSinks, h]

theorem emit_unconfigured_level_noop_witness :
    lookupLevel [("info", [.stdoutLogger "info"])] "debug" = none ∧
    (emit env0 [("info", [.stdoutLogger "info"])] "debug" "hello" [] = .ok () ∧
      invokedSinks [("info", [.stdoutLogger "info"])] "debug" = []) :=
  ⟨by decide,
    emit_unconfigured_level_noop env0 [("info", [.stdoutLogger "info"])]
      "debug" "hello" [] (by decide)⟩

/-- C4: for every level, message and args, the emit closure returned by
`create` never throws synchronously: it always returns a completion signal,
and every failure that signal carries is the failure of the `log` operation
of one of the sinks it invoked — there is no other failure channel. -/
theorem emit_never_throws_sync (env : Env)
    (m : List (String × List MessageLogger)) (level message : String)
    (args : List String) :
    emit env m level message args = .ok () ∨
    ∃ e, emit env m level message args = .error e ∧
      ∃ l ∈ invokedSinks m level, l.log env message args = .error e := by
  cases hl : lookupLevel m level with
  | none =>
    left
    simp [emit, hl]
  | some loggers =>
    cases he : emit env m level message args with
    | ok u =>
      cases u
      left
      rfl
    | error e =>
      right
      refine ⟨e, rfl, ?_⟩
      simp only [emit, hl] at he
      obtain ⟨l, hmem, heq⟩ := List.mem_map.mp (futureSequence_error_mem _ _ he)
      exact ⟨l, by simp [invokedSinks, hl, hmem], heq⟩

/-- C6: constructing a dispatcher from a configuration containing a
`"mongodb:"`-prefixed descriptor with empty remainder, for example
`{ warn: "mongodb:" }`, fails with the empty-collection
`InvalidConfiguration` error at construction time, so no dispatcher mapping
(and hence no emit closure) is ever produced. -/
theorem mongodb_empty_name_fails_construction :
    create [("warn", ConfigValue.vStr "mongodb:")] = .error .collectionEmpty := by
  decide

/-- C7: every descriptor that is not exactly `"stdout"`, not exactly
`"stderr"`, and whose first eight characters (`substring(0, 8)`) are neither
`"mongodb:"` nor `"fluentd:"` resolves to the `InvalidConfiguration` error
that names both the descriptor and the level. -/
theorem unknown_descriptor_fails (method level : String)
    (h1 : method ≠ "stdout") (h2 : method ≠ "stderr")
    (h3 : strTake method 8 ≠ "mongodb:") (h4 : strTake method 8 ≠ "fluentd:") :
    getLoggerByMethod method level = .error (.invalidOption method level) := by
  rw [getLoggerByMethod, if_neg h1, if_neg h2, if_neg h3, if_neg h4]

theorem unknown_descriptor_fails_witness :
    ("unknownsink" ≠ "stdout" ∧ "unknownsink" ≠ "stderr" ∧
      strTake "unknownsink" 8 ≠ "mongodb:" ∧ strTake "unknownsink" 8 ≠ "fluentd:") ∧
    getLoggerByMethod "unknownsink" "error" =
      .error (.invalidOption "unknownsink" "error") :=
  ⟨⟨by decide, by decide, by decide, by decide⟩,
    unknown_descriptor_fails "unknownsink" "error"
      (by decide) (by decide) (by decide) (by decide)⟩

/-- C1: for every level configured with a list of N descriptor strings in a
successfully constructed configuration, the level's entry holds exactly N
resolved sinks, `emit` starts `log` on all of them, the completion signal
resolves successfully iff all N sink `log` operations succeed, and a failed
signal carries the failure of one of those sinks. -/
theorem create_emit_fanout_all_sinks (env : Env)
    (config : List (String × ConfigValue))
    (m : List (String × List MessageLogger)) (level : String)
    (descriptors : List String) (message : String) (args : List String)
    (hnd : (config.map Prod.fst).Nodup)
    (hmem : (level, ConfigValue.vArr descriptors) ∈ config)
    (h : create config = .ok m) :
    ∃ sinks, lookupLevel m level = some sinks ∧
      sinks.length = descriptors.length ∧
      invokedSinks m level = sinks ∧
      (emit env m level message args = .ok () ↔
        ∀ l ∈ sinks, l.log env message args = .ok ()) ∧
      (∀ e, emit env m level message args = .error e →
        ∃ l ∈ sinks, l.log env message args = .error e) := by
  obtain ⟨entry, hrv, hlk⟩ := create_lookup config m level _ hnd h hmem
  cases entry with
  | none =>
    exfalso
    cases hr : resolveList descriptors level with
    | error e => simp [resolveValue, ConfigValue.isFalsy, hr] at hrv
    | ok ls => simp [resolveValue, ConfigValue.isFalsy, hr] at hrv
  | some sinks =>
    have hrl := resolveValue_arr_ok descriptors level sinks hrv
    refine ⟨sinks, hlk, resolveList_length _ _ _ hrl, ?_, ?_, ?_⟩
    · simp [invokedSinks, hlk]
    · simp only [emit, hlk]
      rw [futureSequence_eq_ok]
      constructor
      · intro hall l hl
        exact hall _ (List.mem_map_of_mem _ hl)
      · intro hall f hf
        obtain ⟨l, hl, rfl⟩ := List.mem_map.mp hf
        exact hall l hl
    · intro e he
      simp only [emit, hlk] at he
      obtain ⟨l, hl, heq⟩ := List.mem_map.mp (futureSequence_error_mem _ _ he)
      exact ⟨l, hl, heq⟩

theorem create_emit_fanout_all_sinks_witness :
    (([("info", ConfigValue.vArr ["stdout", "stderr"])].map Prod.fst).Nodup ∧
      ("info", ConfigValue.vArr ["stdout", "stderr"]) ∈
        [("info", ConfigValue.vArr ["stdout", "stderr"])] ∧
      create [("info", ConfigValue.vArr ["stdout", "stderr"])] =
        .ok [("info", [.stdoutLogger "info", .stderrLogger "info"])]) ∧
    ∃ sinks,
      lookupLevel [("info", [.stdoutLogger "info", .stderrLogger "info"])]
        "info" = some sinks ∧
      sinks.length = (["stdout", "stderr"] : List String).length ∧
      invokedSinks [("info", [.stdoutLogger "info", .stderrLogger "info"])]
        "info" = sinks ∧
      (emit env0 [("info", [.stdoutLogger "info", .stderrLogger "info"])]
          "info" "hi" [] = .ok () ↔
        ∀ l ∈ sinks, l.log env0 "hi" [] = .ok ()) ∧
      (∀ e, emit env0 [("info", [.stdoutLogger "info", .stderrLogger "info"])]
          "info" "hi" [] = .error e →
        ∃ l ∈ sinks, l.log env0 "hi" [] = .error e) :=
  ⟨⟨by decide, by decide, by decide⟩,
    create_emit_fanout_all_sinks env0
      [("info", ConfigValue.vArr ["stdout", "stderr"])]
      [("info", [.stdoutLogger "info", .stderrLogger "info"])]
      "info" ["stdout", "stderr"] "hi" []
      (by decide) (by decide) (by decide)⟩

/-- C2 counterexample: a level configured with the empty array (a truthy,
empty value) does get an entry in the mapping, and that entry holds zero
sinks — so the claimed invariant (every key has at least one sink, every
empty value produces no entry) is false as stated. -/
theorem create_mapping_invariant_cex :
    create [("info", ConfigValue.vArr [])] = .ok [("info", [])] ∧
    lookupLevel [("info", [])] "info" = some [] ∧
    ([] : List MessageLogger).length < 1 :=
  ⟨by decide, by decide, by decide⟩

/-- C2 amended: every level present as a key of a successfully constructed
mapping comes from a truthy configured value and has at least one sink
unless that value was the empty array, in which case the entry holds the
empty sink list; levels configured with a falsy value, or absent from the
configuration, get no entry, and falsy values never cause an error. -/
theorem create_mapping_invariant_amended (config : List (String × ConfigValue))
    (m : List (String × List MessageLogger))
    (hnd : (config.map Prod.fst).Nodup) (h : create config = .ok m) :
    (∀ level sinks, (level, sinks) ∈ m →
      ∃ v, (level, v) ∈ config ∧ v.isFalsy = false ∧
        (sinks = [] → v = .vArr [])) ∧
    (∀ level v, (level, v) ∈ config → v.isFalsy = true →
      lookupLevel m level = none) ∧
    (∀ level, level ∉ config.map Prod.fst → lookupLevel m level = none) ∧
    (∀ level v, ConfigValue.isFalsy v = true → resolveValue v level = .ok none) := by
  refine ⟨?_, ?_, ?_, ?_⟩
  · intro level sinks hmem
    obtain ⟨v, hv1, hv2⟩ := create_mem config m h level sinks hmem
    obtain ⟨hf, hemp⟩ := resolveValue_ok_some v level sinks hv2
    exact ⟨v, hv1, hf, hemp⟩
  · intro level v hmem hf
    obtain ⟨entry, h1, h2⟩ := create_lookup config m level v hnd h hmem
    rw [resolveValue_falsy _ _ hf] at h1
    injection h1 with h1
    rw [h2, ← h1]
  · intro level hk
    apply lookupLevel_eq_none
    intro hmem
    exact hk (create_keys_mem config m h level hmem)
  · intro level v hf
    exact resolveValue_falsy v level hf

theorem create_mapping_invariant_amended_witness :
    (([("info", ConfigValue.vStr "stdout"), ("x", ConfigValue.vStr "")].map
        Prod.fst).Nodup ∧
      create [("info", ConfigValue.vStr "stdout"), ("x", ConfigValue.vStr "")] =
        .ok [("info", [.stdoutLogger "info"])]) ∧
    (∃ v, ("info", v) ∈
        [("info", ConfigValue.vStr "stdout"), ("x", ConfigValue.vStr "")] ∧
      v.isFalsy = false ∧
      (([.stdoutLogger "info"] : List MessageLogger) = [] → v = .vArr [])) ∧
    lookupLevel [("info", [.stdoutLogger "info"])] "x" = none ∧
    lookupLevel [("info", [.stdoutLogger "info"])] "debug" = none ∧
    resolveValue (.vStr "") "q" = .ok none := by
  have T := create_mapping_invariant_amended
    [("info", ConfigValue.vStr "stdout"), ("x", ConfigValue.vStr "")]
    [("info", [.stdoutLogger "info"])] (by decide) (by decide)
  exact ⟨⟨by decide, by decide⟩,
    T.1 "info" [.stdoutLogger "info"] (by decide),
    T.2.1 "x" (.vStr "") (by decide) (by decide),
    T.2.2.1 "debug" (by decide),
    T.2.2.2 "q" (.vStr "") (by decide)⟩

/-- C5: configuration resolution follows the per-level algorithm of `create`:
a falsy value yields no entry; a non-empty descriptor string resolves to a
one-element sink list; an array of descriptor strings resolves element-wise
in order (same length, element i of the sinks is the resolution of element i
of the descriptors); a truthy value of any other shape produces the
`InvalidConfiguration` error naming the value and the level; and whenever
the value of some configured level fails to resolve, `create` as a whole
fails with an error, so no dispatcher mapping is produced. -/
theorem config_resolution_algorithm (level s : String) (l : MessageLogger)
    (methods : List String) (sinks : List MessageLogger)
    (v v2 : ConfigValue) (e : ConfigError)
    (config : List (String × ConfigValue)) :
    (v.isFalsy = true → resolveValue v level = .ok none) ∧
    (s ≠ "" → getLoggerByMethod s level = .ok l →
      resolveValue (.vStr s) level = .ok (some [l])) ∧
    (resolveValue (.vArr methods) level = .ok (some sinks) →
      sinks.length = methods.length ∧
      ∀ i m2, methods.get? i = some m2 →
        ∃ l2, sinks.get? i = some l2 ∧ getLoggerByMethod m2 level = .ok l2) ∧
    (resolveValue (.vOther true) level =
      .error (.invalidConfig (.vOther true) level)) ∧
    ((level, v2) ∈ config → resolveValue v2 level = .error e →
      ∃ e2, create config = .error e2) := by
  refine ⟨?_, ?_, ?_, ?_, ?_⟩
  · intro hf
    exact resolveValue_falsy v level hf
  · intro hs hg
    simp [resolveValue, ConfigValue.isFalsy, hs, hg]
  · intro h
    have hrl := resolveValue_arr_ok methods level sinks h
    exact ⟨resolveList_length _ _ _ hrl, fun i m2 hm =>
      resolveList_get methods level sinks hrl i m2 hm⟩
  · rfl
  · intro hmem hv
    exact create_error_of_entry config level v2 e hmem hv

theorem config_resolution_algorithm_witness :
    ((ConfigValue.vStr "").isFalsy = true ∧
      resolveValue (.vStr "") "warn" = .ok none) ∧
    ("stdout" ≠ "" ∧ getLoggerByMethod "stdout" "warn" = .ok (.stdoutLogger "warn") ∧
      resolveValue (.vStr "stdout") "warn" = .ok (some [.stdoutLogger "warn"])) ∧
    (resolveValue (.vArr ["stderr"]) "warn" = .ok (some [.stderrLogger "warn"]) ∧
      ([.stderrLogger "warn"] : List MessageLogger).length =
        (["stderr"] : List String).length ∧
      ∃ l2, ([.stderrLogger "warn"] : List MessageLogger).get? 0 = some l2 ∧
        getLoggerByMethod "stderr" "warn" = .ok l2) ∧
    resolveValue (.vOther true) "warn" =
      .error (.invalidConfig (.vOther true) "warn") ∧
    (("warn", ConfigValue.vOther true) ∈ [("warn", ConfigValue.vOther true)] ∧
      ∃ e2, create [("warn", ConfigValue.vOther true)] = .error e2) := by
  have T := config_resolution_algorithm "warn" "stdout" (.stdoutLogger "warn")
    ["stderr"] [.stderrLogger "warn"] (.vStr "") (.vOther true)
    (.invalidConfig (.vOther true) "warn") [("warn", ConfigValue.vOther true)]
  refine ⟨⟨by decide, T.1 (by decide)⟩,
    ⟨by decide, by decide, T.2.1 (by decide) (by decide)⟩,
    ⟨by decide, (T.2.2.1 (by decide)).1, (T.2.2.1 (by decide)).2 0 "stderr" rfl⟩,
    T.2.2.2.1,
    ⟨by decide, T.2.2.2.2 (by decide) (by decide)⟩⟩

/-- C8 counterexample: for the descriptor `"fluentd:h:1:2"` (remainder with
more than one colon) the constructed sink's port is `"1"`, the text between
the first and second colon — not `"1:2"`, the entire rest after the first
colon as the claim states. -/
theorem fluentd_split_once_cex :
    getLoggerByMethod "fluentd:h:1:2" "warn" =
      .ok (.fluentdLogger "warn" "h" (some "1")) ∧
    getLoggerByMethod "fluentd:h:1:2" "warn" ≠
      .ok (.fluentdLogger "warn" "h" (some "1:2")) :=
  ⟨by decide, by decide⟩

/-- C8 amended: the remainder after the `"fluentd:"` prefix is split at every
colon; the host is element 0 of the split (the text before the first colon)
and the port is element 1 (the text between the first and second colon,
`none` when the remainder has no colon); any text after a second colon is
discarded. -/
theorem fluentd_split_amended (level rest : String) (a b c : List Char)
    (ha : ':' ∉ a) (hb : ':' ∉ b) :
    getLoggerByMethod ("fluentd:" ++ rest) level =
      .ok (.fluentdLogger level ((jsSplit ':' rest).headD "")
        ((jsSplit ':' rest).get? 1)) ∧
    getLoggerByMethod ("fluentd:" ++ ⟨a ++ ':' :: (b ++ ':' :: c)⟩) level =
      .ok (.fluentdLogger level ⟨a⟩ (some ⟨b⟩)) := by
  refine ⟨getLoggerByMethod_fluentd level rest, ?_⟩
  rw [getLoggerByMethod_fluentd]
  have hs : splitChars ':' (a ++ ':' :: (b ++ ':' :: c)) =
      a :: b :: splitChars ':' c := by
    rw [splitChars_append _ _ _ ha, splitChars_append _ _ _ hb]
  simp only [jsSplit, hs, List.map_cons]
  rfl

theorem fluentd_split_amended_witness :
    (':' ∉ (['h'] : List Char) ∧ ':' ∉ (['1'] : List Char)) ∧
    getLoggerByMethod ("fluentd:" ++ ⟨['h'] ++ ':' :: (['1'] ++ ':' :: ['2'])⟩)
        "warn" =
      .ok (.fluentdLogger "warn" ⟨['h']⟩ (some ⟨['1']⟩)) :=
  ⟨⟨by decide, by decide⟩,
    (fluentd_split_amended "warn" "h" ['h'] ['1'] ['2']
      (by decide) (by decide)).2⟩

/-- C9: the handler the `FluentdLogger` constructor registers on the sender's
error channel stays active over the sink's whole lifetime: every event of
the channel passes through it; it suppresses (returns without raising)
exactly the errors whose code is `ECONNRESET` or `ECONNREFUSED` and
re-raises every other error, which is the first escaping event of the
lifetime stream — not a one-shot catch around a single call. -/
theorem fluentd_error_suppressor (events : List String) (e : String) :
    (∀ code, fluentdOnError code = .ok () ↔
      (code = "ECONNRESET" ∨ code = "ECONNREFUSED")) ∧
    (∀ code, code ≠ "ECONNRESET" → code ≠ "ECONNREFUSED" →
      fluentdOnError code = .error code) ∧
    (processSenderErrors events = .ok () ↔
      ∀ code ∈ events, code = "ECONNRESET" ∨ code = "ECONNREFUSED") ∧
    (processSenderErrors events = .error e →
      e ∈ events ∧ e ≠ "ECONNRESET" ∧ e ≠ "ECONNREFUSED") := by
  refine ⟨?_, ?_, ?_, ?_⟩
  · intro code
    by_cases hc : code = "ECONNRESET" ∨ code = "ECONNREFUSED"
    · simp [fluentdOnError, hc]
    · simp [fluentdOnError, hc]
  · intro code h1 h2
    rw [fluentdOnError, if_neg]
    rintro (hc | hc)
    · exact h1 hc
    · exact h2 hc
  · induction events with
    | nil => simp [processSenderErrors]
    | cons c rest ih =>
      by_cases hc : c = "ECONNRESET" ∨ c = "ECONNREFUSED"
      · simp only [processSenderErrors, fluentdOnError, if_pos hc]
        rw [ih]
        simp [hc]
      · simp only [processSenderErrors, fluentdOnError, if_neg hc]
        simp [hc]
  · induction events with
    | nil => intro h; simp [processSenderErrors] at h
    | cons c rest ih =>
      intro h
      by_cases hc : c = "ECONNRESET" ∨ c = "ECONNREFUSED"
      · simp only [processSenderErrors, fluentdOnError, if_pos hc] at h
        obtain ⟨h1, h2⟩ := ih h
        exact ⟨List.mem_cons_of_mem _ h1, h2⟩
      · simp only [processSenderErrors, fluentdOnError, if_neg hc] at h
        injection h with h
        subst h
        rw [not_or] at hc
        exact ⟨List.mem_cons_self _ _, hc⟩

theorem fluentd_error_suppressor_witness :
    fluentdOnError "ECONNRESET" = .ok () ∧
    fluentdOnError "EPIPE" = .error "EPIPE" ∧
    processSenderErrors ["ECONNRESET", "ECONNREFUSED"] = .ok () ∧
    ("EPIPE" ∈ ["ECONNRESET", "EPIPE"] ∧ "EPIPE" ≠ "ECONNRESET" ∧
      "EPIPE" ≠ "ECONNREFUSED") := by
  have T := fluentd_error_suppressor ["ECONNRESET", "EPIPE"] "EPIPE"
  have T2 := fluentd_error_suppressor ["ECONNRESET", "ECONNREFUSED"] "EPIPE"
  exact ⟨(T.1 "ECONNRESET").mpr (Or.inl rfl),
    T.2.1 "EPIPE" (by decide) (by decide),
    T2.2.2.1.mpr (by decide),
    T.2.2.2 (by decide)⟩

/-- C10: every `"fluentd:"`-prefixed descriptor constructs a sink and never
fails with an `InvalidConfiguration` error, whatever the remainder: the
result is always `.ok`; a remainder with no colon yields that remainder as
host and an undefined (`none`) port; the empty remainder yields the empty
host and an undefined port. No emptiness validation is performed, unlike the
mongodb case. -/
theorem fluentd_never_invalid_configuration (level rest : String) :
    getLoggerByMethod ("fluentd:" ++ rest) level =
      .ok (.fluentdLogger level ((jsSplit ':' rest).headD "")
        ((jsSplit ':' rest).get? 1)) ∧
    (':' ∉ rest.data → getLoggerByMethod ("fluentd:" ++ rest) level =
      .ok (.fluentdLogger level rest none)) ∧
    (rest = "" → getLoggerByMethod ("fluentd:" ++ rest) level =
      .ok (.fluentdLogger level "" none)) := by
  refine ⟨getLoggerByMethod_fluentd level rest, ?_, ?_⟩
  · intro h
    rw [getLoggerByMethod_fluentd]
    have hs : splitChars ':' rest.data = [rest.data] :=
      splitChars_of_not_mem _ _ h
    simp [jsSplit, hs, string_mk_data]
  · intro h
    subst h
    rw [getLoggerByMethod_fluentd]
    rfl

theorem fluentd_never_invalid_configuration_witness :
    (':' ∉ ("host" : String).data ∧
      getLoggerByMethod ("fluentd:" ++ "host") "info" =
        .ok (.fluentdLogger "info" "host" none)) ∧
    getLoggerByMethod ("fluentd:" ++ "") "info" =
      .ok (.fluentdLogger "info" "" none) :=
  ⟨⟨by decide, (fluentd_never_invalid_configuration "info" "host").2.1 (by decide)⟩,
    (fluentd_never_invalid_configuration "info" "").2.2 rfl⟩
